import Mathlib

/-!
Verification of the ingredient-text normalization pipeline of the
`recipePostgres` repository: the confidence-gated primary parser wrapper
(`parse_ingredient_advanced`), the pattern-based fallback parser
(`fallback_parse`), the keyword categorizer (`categorize_ingredient`)
from `utils.py`, and the quantity conversion / ingredient-record
construction from `import_recipes.py`.

Strings are embedded as `List Char`.  Python regular-expression matching
for the two anchored patterns used by `fallback_parse` is embedded by a
backtracking matcher specialised to those patterns, producing candidate
remainders in Python's backtracking priority order (greedy quantifiers
longest-first, alternation in listed order).
-/

namespace RecipePG

/-- The Python `\s` / `str.split()` / `str.strip()` whitespace class
(restricted to its ASCII members, which is what recipe text contains). -/
def isWs (c : Char) : Bool :=
  c = ' ' || c = '\t' || c = '\n' || c = '\r' || c = '\x0b' || c = '\x0c'

/-- The character class `[\d\/\.\s]` of the leading-quantity patterns. -/
def isQtyChar (c : Char) : Bool :=
  c.isDigit || c = '/' || c = '.' || isWs c

/-- The character class `[\/\s]` of the residual-stripping pattern. -/
def isSlashWs (c : Char) : Bool :=
  c = '/' || isWs c

/-- Characters that are not the truncation delimiters of `re.split(r'[,(]', ...)`. -/
def nonDelim (c : Char) : Bool :=
  !(c = ',' || c = '(')

/-- Remove a maximal trailing run of characters satisfying `p`. -/
def dropTrail (p : Char → Bool) (l : List Char) : List Char :=
  (l.reverse.dropWhile p).reverse

/-- Python `str.strip()`: remove leading and trailing whitespace. -/
def pyStrip (l : List Char) : List Char :=
  dropTrail isWs (l.dropWhile isWs)

/-- Helper for `pySplit`: accumulates the current word (reversed) while
scanning the text. -/
def tokensAux : List Char → List Char → List (List Char)
  | acc, [] => if acc.isEmpty then [] else [acc.reverse]
  | acc, c :: rest =>
    if isWs c then
      if acc.isEmpty then tokensAux [] rest
      else acc.reverse :: tokensAux [] rest
    else tokensAux (c :: acc) rest

/-- Python `str.split()` with no argument: split on runs of whitespace,
discarding empty tokens. -/
def pySplit (l : List Char) : List (List Char) :=
  tokensAux [] l

/-! ### A backtracking matcher for the fallback patterns

Each combinator maps an input remainder to the list of possible remainders
after the corresponding pattern piece, in Python's backtracking priority
order.  Sequencing is `List.bind`, so the head of the final candidate list
is the match Python's engine finds. -/

/-- Length of the maximal prefix satisfying `p`. -/
def runLen (p : Char → Bool) (l : List Char) : Nat :=
  (l.takeWhile p).length

/-- Remainders of a greedy `+` over the class `p`: consume `runLen p l`
characters down to `1`, longest first.  Empty when no character matches. -/
def plusRems (p : Char → Bool) (l : List Char) : List (List Char) :=
  (List.range (runLen p l)).map (fun i => l.drop (runLen p l - i))

/-- Remainders of a greedy `*` over the class `p`: consume `runLen p l`
characters down to `0`, longest first. -/
def starRems (p : Char → Bool) (l : List Char) : List (List Char) :=
  (List.range (runLen p l + 1)).map (fun i => l.drop (runLen p l - i))

/-- Strip a literal keyword (given lowercase) case-insensitively from the
head of the input, as `re.IGNORECASE` matches an ASCII literal. -/
def stripCI : List Char → List Char → Option (List Char)
  | [], l => some l
  | _ :: _, [] => none
  | k :: ks, c :: cs => if c.toLower = k then stripCI ks cs else none

/-- The first unit-keyword alternation of the fallback pattern, in the
pattern's listed order. -/
def unitWords1 : List (List Char) :=
  ["tsp", "tbsp", "tablespoon", "teaspoon", "cup", "cups", "oz", "ounce",
   "ounces", "g", "gram", "grams", "kg", "lb", "lbs", "pound", "pounds",
   "ml", "milliliter", "liter", "l", "small", "large", "medium", "pinch",
   "dash", "clove", "cloves"].map String.toList

/-- The second (dual-unit group) unit-keyword alternation, in the pattern's
listed order. -/
def unitWords2 : List (List Char) :=
  ["tsp", "tbsp", "tablespoon", "teaspoon", "cup", "cups", "oz", "ounce",
   "ounces", "g", "gram", "grams", "kg", "lb", "lbs", "pound", "pounds",
   "ml", "milliliter", "liter", "l"].map String.toList

/-- Remainders after an ordered alternation of literal keywords. -/
def altRems (kws : List (List Char)) (l : List Char) : List (List Char) :=
  kws.filterMap (fun k => stripCI k l)

/-- Remainders of the optional pluralisation `s?` (greedy: with-`s` first). -/
def optSRems : List Char → List (List Char)
  | [] => [[]]
  | c :: rest => if c.toLower = 's' then [rest, c :: rest] else [c :: rest]

/-- Remainders after a literal character. -/
def charRems (ch : Char) : List Char → List (List Char)
  | [] => []
  | c :: rest => if c = ch then [rest] else []

/-- Remainders of the dual-unit group body `\s*\/\s*[\d\/\.\s]+(...)s?`. -/
def groupInnerRems (l : List Char) : List (List Char) :=
  (starRems isWs l).flatMap fun r1 =>
    (charRems '/' r1).flatMap fun r2 =>
      (starRems isWs r2).flatMap fun r3 =>
        (plusRems isQtyChar r3).flatMap fun r4 =>
          (altRems unitWords2 r4).flatMap fun r5 =>
            optSRems r5

/-- Remainders of the optional (greedy) dual-unit group. -/
def optGroupRems (l : List Char) : List (List Char) :=
  groupInnerRems l ++ [l]

/-- `re.sub(pattern, '', text, flags=re.IGNORECASE)` for the anchored
leading quantity-and-unit pattern of `fallback_parse`: `some rem` when the
pattern matches a prefix (and `rem` is the text with that prefix removed),
`none` when it does not match.  The final `\s+` is the first candidate in
priority order whose head is whitespace, consumed greedily. -/
def pattern1Rem (l : List Char) : Option (List Char) :=
  let cands :=
    (plusRems isQtyChar l).flatMap fun r1 =>
      (altRems unitWords1 r1).flatMap fun r2 =>
        (optSRems r2).flatMap fun r3 =>
          optGroupRems r3
  (cands.find? fun r =>
      match r with
      | c :: _ => isWs c
      | [] => false).map
    (fun r => r.dropWhile isWs)

/-- `fallback_parse` from `utils.py`.  Returns `some token` on a normal
return and `none` when `words[0]` raises `IndexError` (no token survives). -/
def fallback_parse (s : List Char) : Option (List Char) :=
  let cleaned :=
    match pattern1Rem s with
    | some rem => rem
    | none => s
  let cleaned2 :=
    if cleaned = s then pyStrip (s.dropWhile isQtyChar) else cleaned
  let main1 := pyStrip (cleaned2.takeWhile nonDelim)
  let main2 := pyStrip (main1.dropWhile isSlashWs)
  (pySplit main2).head?

/-! ### Categorizer -/

/-- Boolean prefix test on character lists. -/
def isPrefixB : List Char → List Char → Bool
  | [], _ => true
  | _ :: _, [] => false
  | a :: as, b :: bs => a = b && isPrefixB as bs

/-- Python's substring containment `needle in hay`. -/
def hasSub (needle : List Char) : List Char → Bool
  | [] => needle.isEmpty
  | c :: rest => isPrefixB needle (c :: rest) || hasSub needle rest

/-- Python `str.lower()` (ASCII). -/
def toLowerL (l : List Char) : List Char :=
  l.map Char.toLower

/-- The static category → keyword table of `utils.py`, in insertion order. -/
def INGREDIENT_CATEGORIES : List (List Char × List (List Char)) :=
  [("proteins".toList,
    ["pork", "chicken", "beef", "lamb", "fish", "salmon", "tuna",
     "shrimp", "prawns", "tofu", "eggs", "turkey"].map String.toList),
   ("vegetables".toList,
    ["zucchini", "capsicum", "pepper", "onion", "garlic", "tomato",
     "carrot", "broccoli", "spinach", "lettuce", "mushroom"].map String.toList),
   ("grains".toList,
    ["couscous", "rice", "pasta", "quinoa", "bread", "flour"].map String.toList),
   ("dairy".toList,
    ["cheese", "feta", "milk", "butter", "cream", "yogurt"].map String.toList),
   ("herbs".toList,
    ["mint", "basil", "parsley", "cilantro", "thyme", "rosemary"].map String.toList)]

/-- The category-table loop of `categorize_ingredient`. -/
def categorizeAux (lower : List Char) : List (List Char × List (List Char)) → List Char
  | [] => "other".toList
  | (cat, kws) :: rest =>
    if kws.any (fun kw => hasSub kw lower) then cat else categorizeAux lower rest

/-- `categorize_ingredient` from `utils.py`. -/
def categorize_ingredient (name : List Char) : List Char :=
  categorizeAux (toLowerL name) INGREDIENT_CATEGORIES

/-! ### The spec's step-by-step description of the fallback parser

These definitions follow the words of spec §4.2 / design note §9
("explicit ordered sequence of text-transform steps"), to be compared
with `fallback_parse` as embedded from the source. -/

/-- Spec step (a): strip one leading quantity-and-unit group (with optional
dual-unit notation) followed by mandatory whitespace, anchored at the start. -/
def stepA (s : List Char) : List Char :=
  match pattern1Rem s with
  | some rem => rem
  | none => s

/-- Spec step (b): if step (a) changed nothing, strip a bare leading run of
digits/slashes/periods/whitespace. -/
def stepB (s : List Char) : List Char :=
  if stepA s = s then s.dropWhile isQtyChar else stepA s

/-- Spec step (c): truncate at the first comma or open-parenthesis, keeping
the text before it. -/
def stepC (s : List Char) : List Char :=
  s.takeWhile nonDelim

/-- Spec step (d): strip leading slash/whitespace remnants. -/
def stepD (s : List Char) : List Char :=
  s.dropWhile isSlashWs

/-- Spec step (e): the first whitespace-separated token of what remains
(`none` when no token remains). -/
def stepE (s : List Char) : Option (List Char) :=
  (pySplit s).head?

/-- The spec's left-to-right composition of the fallback steps. -/
def fallbackSpec (s : List Char) : Option (List Char) :=
  stepE (stepD (stepC (stepB s)))

/-! ### Primary parser wrapper (`parse_ingredient_advanced`)

The underlying statistical extractor `parse_ingredient` is an external
library; its outcome on a given text is a parameter: `none` models the
extraction raising an error, `some r` a returned result object whose
name spans carry confidence scores (embedded as rationals). -/

/-- A Python quantity value as found on amount spans: `None`, a `Fraction`,
an `int`, a `float` (embedded by its rational value), a string, or some
other object. -/
inductive PyQuantity where
  | none
  | fraction (q : ℚ)
  | int (n : ℤ)
  | float (x : ℚ)
  | str (s : List Char)
  | obj
deriving DecidableEq

/-- A Python unit value as found on amount spans: `None`, a string, or a
unit object (carrying its `str()` representation). -/
inductive PyUnit where
  | none
  | str (s : List Char)
  | obj (rep : List Char)
deriving DecidableEq

/-- A name span of the library's result, with confidence score. -/
structure NameSpan where
  text : List Char
  confidence : ℚ
deriving DecidableEq

/-- An amount span of the library's result. -/
structure AmountSpan where
  quantity : PyQuantity
  unit : PyUnit
deriving DecidableEq

/-- The preparation span of the library's result. -/
structure PrepSpan where
  text : List Char
deriving DecidableEq

/-- The result object of the external `parse_ingredient` call. -/
structure IPResult where
  name : List NameSpan
  amount : List AmountSpan
  preparation : Option PrepSpan
deriving DecidableEq

/-- The structured record built on the primary path. -/
structure ParsedIngredient where
  name : List Char
  quantity : PyQuantity
  unit : PyUnit
  preparation : List Char
  original : List Char
  parsed_successfully : Bool
deriving DecidableEq

/-- The two return shapes of `parse_ingredient_advanced`: a structured dict
or the bare fallback name string. -/
inductive ParseOut where
  | structured (r : ParsedIngredient)
  | fallback (name : List Char)
deriving DecidableEq

/-- `parse_ingredient_advanced` from `utils.py`, parameterised by the
outcome `primary` of the external `parse_ingredient` call on `text`
(`none` = the call raised).  The overall result is `none` when an
exception escapes the function: the `except` handler calls
`fallback_parse`, whose own `IndexError` is not caught. -/
def parse_ingredient_advanced (primary : Option IPResult) (text : List Char) :
    Option ParseOut :=
  let exceptPath := (fallback_parse text).map ParseOut.fallback
  match primary with
  | Option.none => exceptPath
  | some parsed =>
    match parsed.name with
    | [] => exceptPath
    | n0 :: _ =>
      if (6 : ℚ) / 10 < n0.confidence then
        some (ParseOut.structured
          { name := n0.text
            quantity := match parsed.amount with
              | [] => PyQuantity.none
              | a :: _ => a.quantity
            unit := match parsed.amount with
              | [] => PyUnit.str []
              | a :: _ => a.unit
            preparation := match parsed.preparation with
              | some p => p.text
              | Option.none => []
            original := text
            parsed_successfully := true })
      else exceptPath

/-! ### Quantity and unit conversion (`import_recipes.py`) -/

/-- Split a maximal leading digit run from the rest. -/
def takeDigits (l : List Char) : List Char × List Char :=
  (l.takeWhile Char.isDigit, l.dropWhile Char.isDigit)

/-- Value of a digit run. -/
def digitsToNat (ds : List Char) : Nat :=
  ds.foldl (fun acc c => acc * 10 + (c.toNat - '0'.toNat)) 0

/-- Python's `float(str)` on the plain-decimal subset of its grammar
(optional surrounding whitespace, optional sign, digits with an optional
decimal point; exponent, `inf` and `nan` forms are outside the model):
`some` of the exact rational value, `none` when `ValueError` is raised. -/
def pyFloatOfString (s : List Char) : Option ℚ :=
  let t0 := pyStrip s
  let sign : ℚ := match t0 with
    | '-' :: _ => -1
    | _ => 1
  let t1 := match t0 with
    | '-' :: r => r
    | '+' :: r => r
    | r => r
  let ip := (takeDigits t1).1
  match (takeDigits t1).2 with
  | [] => if ip.isEmpty then Option.none else some (sign * digitsToNat ip)
  | '.' :: r =>
    let fp := (takeDigits r).1
    if (takeDigits r).2.isEmpty then
      if ip.isEmpty && fp.isEmpty then Option.none
      else some (sign * ((digitsToNat ip : ℚ) +
        (digitsToNat fp : ℚ) / (10 ^ fp.length)))
    else Option.none
  | _ => Option.none

/-- Python's `Fraction(str)` on the subset `[ws][sign]digits[/digits]` or
`[ws][sign]decimal[ws]` of its grammar (exponent forms are outside the
model): `some` of the rational value, `none` when `ValueError` or
`ZeroDivisionError` (denominator `0`) is raised — `convert_quantity`
catches both identically. -/
def pyFractionOfString (s : List Char) : Option ℚ :=
  let t0 := pyStrip s
  let sign : ℚ := match t0 with
    | '-' :: _ => -1
    | _ => 1
  let t1 := match t0 with
    | '-' :: r => r
    | '+' :: r => r
    | r => r
  let ip := (takeDigits t1).1
  match (takeDigits t1).2 with
  | [] => if ip.isEmpty then Option.none else some (sign * digitsToNat ip)
  | '/' :: r =>
    let dp := (takeDigits r).1
    if ip.isEmpty || dp.isEmpty || !(takeDigits r).2.isEmpty then Option.none
    else if digitsToNat dp = 0 then Option.none
    else some (sign * (digitsToNat ip : ℚ) / (digitsToNat dp : ℚ))
  | '.' :: r =>
    let fp := (takeDigits r).1
    if (takeDigits r).2.isEmpty then
      if ip.isEmpty && fp.isEmpty then Option.none
      else some (sign * ((digitsToNat ip : ℚ) +
        (digitsToNat fp : ℚ) / (10 ^ fp.length)))
    else Option.none
  | _ => Option.none

/-- `convert_quantity` from `import_recipes.py`: convert a quantity value
to a rational (the value of the Python float) or `None`. -/
def convert_quantity : PyQuantity → Option ℚ
  | PyQuantity.none => Option.none
  | PyQuantity.fraction q => some q
  | PyQuantity.int n => some (n : ℚ)
  | PyQuantity.float x => some x
  | PyQuantity.str s =>
    match pyFloatOfString s with
    | some x => some x
    | Option.none =>
      match pyFractionOfString s with
      | some q => some q
      | Option.none => Option.none
  | PyQuantity.obj => Option.none

/-- `convert_unit` from `import_recipes.py`: `None` becomes `''`, strings
pass through, other objects are rendered by `str()`. -/
def convert_unit : PyUnit → List Char
  | PyUnit.none => []
  | PyUnit.str s => s
  | PyUnit.obj rep => rep

/-! ### Ingredient-record construction (`insert_recipe`) -/

/-- One row of the `ingredients` insert built by `insert_recipe`. -/
structure IngRec where
  recipe_id : Nat
  original_text : List Char
  ingredient_name : List Char
  quantity : Option ℚ
  unit : List Char
  preparation : List Char
  category : List Char
  position : Nat
deriving DecidableEq

/-- The record `insert_recipe` appends for one ingredient line, handling
both the dict and the bare-string return shapes of the parser. -/
def mkIngRec (rid : Nat) (text : List Char) (p : ParseOut) (idx : Nat) : IngRec :=
  let nm := match p with
    | ParseOut.fallback w => w
    | ParseOut.structured r => r.name
  let qty := match p with
    | ParseOut.fallback _ => PyQuantity.none
    | ParseOut.structured r => r.quantity
  let un := match p with
    | ParseOut.fallback _ => PyUnit.str []
    | ParseOut.structured r => r.unit
  let prep := match p with
    | ParseOut.fallback _ => []
    | ParseOut.structured r => r.preparation
  { recipe_id := rid
    original_text := text
    ingredient_name := nm
    quantity := convert_quantity qty
    unit := convert_unit un
    preparation := prep
    category := categorize_ingredient nm
    position := idx }

/-- The `for idx, ingredient_text in enumerate(ingredients_list, 1)` loop
of `insert_recipe`, parameterised by the primary-parser outcome for each
line; `none` when a parse raised (aborting the whole insert). -/
def buildIngredients (oracle : List Char → Option IPResult) (rid : Nat) :
    Nat → List (List Char) → Option (List IngRec)
  | _, [] => some []
  | idx, t :: rest =>
    match parse_ingredient_advanced (oracle t) t with
    | Option.none => Option.none
    | some p =>
      match buildIngredients oracle rid (idx + 1) rest with
      | Option.none => Option.none
      | some rs => some (mkIngRec rid t p idx :: rs)

/-- The parsed-ingredients list `insert_recipe` builds for a recipe's
ingredient lines (enumeration starts at position 1). -/
def insert_recipe_ingredients (oracle : List Char → Option IPResult)
    (rid : Nat) (lines : List (List Char)) : Option (List IngRec) :=
  buildIngredients oracle rid 1 lines

/-- The per-category check of the categorizer loop: does any keyword of
`kws` occur in the lowercased name? -/
def catMatches (kws : List (List Char)) (name : List Char) : Bool :=
  kws.any (fun kw => hasSub kw (toLowerL name))

/-- The keyword list of the `i`-th entry of the category table. -/
def kwsOf (i : Nat) : List (List Char) :=
  ((INGREDIENT_CATEGORIES.get? i).map Prod.snd).getD []

/-- A high-confidence result of the external extractor, as used to witness
the confidence gate. -/
def ipHighEx : IPResult :=
  { name := [{ text := "couscous".toList, confidence := 7 / 10 }]
    amount := [{ quantity := PyQuantity.str "1/2".toList,
                 unit := PyUnit.str "cup".toList }]
    preparation := Option.none }

/-- A low-confidence result of the external extractor. -/
def ipLowEx : IPResult :=
  { name := [{ text := "couscous".toList, confidence := 1 / 2 }]
    amount := []
    preparation := Option.none }

/-- Example ingredient lines for the record-construction witness. -/
def c8LinesEx : List (List Char) :=
  ["1 cup couscous".toList, "2 tbsp olive oil".toList]

/-! ### Character-class inclusions -/

theorem ws_imp_slashWs (c : Char) (h : isWs c = true) : isSlashWs c = true := by
  simp [isSlashWs, h]

theorem ws_imp_qtyChar (c : Char) (h : isWs c = true) : isQtyChar c = true := by
  simp [isQtyChar, h]

theorem ws_imp_nonDelim (c : Char) (h : isWs c = true) : nonDelim c = true := by
  simp only [isWs, Bool.or_eq_true, decide_eq_true_eq] at h
  rcases h with ((((h | h) | h) | h) | h) | h <;> subst h <;> decide

/-! ### takeWhile / dropWhile facts -/

theorem takeWhile_all (p : Char → Bool) (l : List Char) :
    (∀ c ∈ l, p c = true) → l.takeWhile p = l := by
  induction l with
  | nil => intro _; rfl
  | cons c r ih =>
    intro h
    have hc : p c = true := h c (by simp)
    simp only [List.takeWhile_cons, hc, if_true]
    rw [ih (fun d hd => h d (by simp [hd]))]

theorem dropWhile_all (p : Char → Bool) (l : List Char) :
    (∀ c ∈ l, p c = true) → l.dropWhile p = [] := by
  induction l with
  | nil => intro _; rfl
  | cons c r ih =>
    intro h
    have hc : p c = true := h c (by simp)
    simp only [List.dropWhile_cons, hc, if_true]
    exact ih (fun d hd => h d (by simp [hd]))

theorem dropWhile_subset_left (p q : Char → Bool)
    (hpq : ∀ c, q c = true → p c = true) (l : List Char) :
    (l.dropWhile q).dropWhile p = l.dropWhile p := by
  induction l with
  | nil => rfl
  | cons c r ih =>
    by_cases hq : q c = true
    · simp only [List.dropWhile_cons, hq, if_true, hpq c hq, ih]
    · simp [List.dropWhile_cons, hq]

theorem dropWhile_subsumed (p q : Char → Bool)
    (hpq : ∀ c, q c = true → p c = true) (l : List Char) :
    (l.dropWhile p).dropWhile q = l.dropWhile p := by
  induction l with
  | nil => rfl
  | cons c r ih =>
    by_cases hp : p c = true
    · simp only [List.dropWhile_cons, hp, if_true, ih]
    · have hq : ¬ q c = true := fun h => hp (hpq c h)
      simp [List.dropWhile_cons, hp, hq]

theorem takeWhile_append_left (p : Char → Bool) (m w : List Char)
    (hm : m.takeWhile p = m) : (m ++ w).takeWhile p = m ++ w.takeWhile p := by
  induction m with
  | nil => rfl
  | cons c r ih =>
    by_cases hc : p c = true
    · simp only [List.takeWhile_cons, hc, if_true] at hm ⊢
      simp only [List.cons_append, List.takeWhile_cons, hc, if_true]
      rw [ih (by injection hm)]
    · simp only [List.takeWhile_cons, hc, if_false] at hm
      exact absurd hm.symm (List.cons_ne_nil c r)

theorem takeWhile_append_stop (p : Char → Bool) (m w : List Char)
    (hm : m.takeWhile p ≠ m) : (m ++ w).takeWhile p = m.takeWhile p := by
  induction m with
  | nil => exact absurd rfl hm
  | cons c r ih =>
    by_cases hc : p c = true
    · simp only [List.takeWhile_cons, hc, if_true] at hm ⊢
      simp only [List.cons_append, List.takeWhile_cons, hc, if_true]
      rw [ih (fun h => hm (by rw [h]))]
    · simp [List.cons_append, List.takeWhile_cons, hc]

theorem dropWhile_append_pos (p : Char → Bool) (m w : List Char)
    (hm : m.dropWhile p ≠ []) : (m ++ w).dropWhile p = m.dropWhile p ++ w := by
  induction m with
  | nil => exact absurd rfl hm
  | cons c r ih =>
    by_cases hc : p c = true
    · simp only [List.dropWhile_cons, hc, if_true] at hm ⊢
      simp only [List.cons_append, List.dropWhile_cons, hc, if_true]
      exact ih hm
    · simp [List.cons_append, List.dropWhile_cons, hc]

theorem dropWhile_append_nil (p : Char → Bool) (m w : List Char)
    (hm : m.dropWhile p = []) : (m ++ w).dropWhile p = w.dropWhile p := by
  induction m with
  | nil => rfl
  | cons c r ih =>
    by_cases hc : p c = true
    · simp only [List.dropWhile_cons, hc, if_true] at hm ⊢
      simp only [List.cons_append, List.dropWhile_cons, hc, if_true]
      exact ih hm
    · simp only [List.dropWhile_cons, hc, if_false] at hm
      exact absurd hm (List.cons_ne_nil c _)

/-- Every list splits as its trailing-run-stripped part followed by a run
of characters satisfying `p`. -/
theorem dropTrail_decomp (p : Char → Bool) (l : List Char) :
    ∃ w, l = dropTrail p l ++ w ∧ ∀ c ∈ w, p c = true := by
  refine ⟨(l.reverse.takeWhile p).reverse, ?_, ?_⟩
  · have h := congrArg List.reverse
      (List.takeWhile_append_dropWhile (p := p) (l := l.reverse))
    rw [List.reverse_append, List.reverse_reverse] at h
    exact h.symm
  · intro c hc
    rw [List.mem_reverse] at hc
    exact List.mem_takeWhile_imp hc

/-! ### Tokenizer facts -/

theorem tokensAux_allWs (w : List Char) :
    (∀ c ∈ w, isWs c = true) → ∀ acc,
      tokensAux acc w = if acc.isEmpty then [] else [acc.reverse] := by
  induction w with
  | nil => intro _ acc; rfl
  | cons c r ih =>
    intro hw acc
    have hc : isWs c = true := hw c (by simp)
    have hr := ih (fun d hd => hw d (by simp [hd]))
    by_cases ha : acc.isEmpty
    · simp [tokensAux, hc, ha, hr []]
    · simp [tokensAux, hc, ha, hr []]

theorem tokensAux_append_ws (l w : List Char) :
    (∀ c ∈ w, isWs c = true) → ∀ acc,
      tokensAux acc (l ++ w) = tokensAux acc l := by
  induction l with
  | nil =>
    intro hw acc
    show tokensAux acc w = tokensAux acc []
    rw [tokensAux_allWs w hw acc]
    rfl
  | cons c r ih =>
    intro hw acc
    by_cases hc : isWs c = true
    · by_cases ha : acc.isEmpty
      · simp [tokensAux, hc, ha, ih hw []]
      · simp [tokensAux, hc, ha, ih hw []]
    · simp [tokensAux, hc, ih hw (c :: acc)]

theorem tokensAux_ne_nil (l : List Char) :
    ∀ acc, acc.isEmpty = false → tokensAux acc l ≠ [] := by
  induction l with
  | nil => intro acc ha; simp [tokensAux, ha]
  | cons c r ih =>
    intro acc ha
    by_cases hc : isWs c = true
    · simp [tokensAux, hc, ha]
    · have h : tokensAux acc (c :: r) = tokensAux (c :: acc) r := by
        simp [tokensAux, hc]
      rw [h]
      exact ih (c :: acc) rfl

theorem pySplit_dropWhile_ws (l : List Char) :
    pySplit (l.dropWhile isWs) = pySplit l := by
  induction l with
  | nil => rfl
  | cons c r ih =>
    by_cases hc : isWs c = true
    · show pySplit ((c :: r).dropWhile isWs) = tokensAux [] (c :: r)
      simp only [List.dropWhile_cons, hc, if_true]
      rw [ih]
      simp [pySplit, tokensAux, hc]
    · simp [List.dropWhile_cons, hc]

theorem pySplit_dropTrail_ws (l : List Char) :
    pySplit (dropTrail isWs l) = pySplit l := by
  obtain ⟨w, hl, hw⟩ := dropTrail_decomp isWs l
  conv_rhs => rw [hl]
  exact (tokensAux_append_ws (dropTrail isWs l) w hw []).symm

theorem pySplit_pyStrip (l : List Char) :
    pySplit (pyStrip l) = pySplit l := by
  show pySplit (dropTrail isWs (l.dropWhile isWs)) = pySplit l
  rw [pySplit_dropTrail_ws, pySplit_dropWhile_ws]

theorem pySplit_eq_nil_iff (l : List Char) :
    pySplit l = [] ↔ ∀ c ∈ l, isWs c = true := by
  induction l with
  | nil => simp [pySplit, tokensAux]
  | cons c r ih =>
    by_cases hc : isWs c = true
    · show tokensAux [] (c :: r) = [] ↔ _
      simp only [tokensAux, hc, if_true, List.isEmpty_nil]
      constructor
      · intro h d hd
        rcases List.mem_cons.mp hd with h1 | h1
        · exact h1 ▸ hc
        · exact (ih.mp h) d h1
      · intro h
        exact ih.mpr (fun d hd => h d (by simp [hd]))
    · constructor
      · intro h
        exact absurd ((by simp [pySplit, tokensAux, hc] : pySplit (c :: r)
          = tokensAux [c] r) ▸ h) (tokensAux_ne_nil r [c] rfl)
      · intro h
        exact absurd (h c (by simp)) hc

/-- Every token produced by the splitter is nonempty, whitespace-free, and
drawn from the accumulator or the input. -/
theorem tokensAux_shape (l : List Char) :
    ∀ acc, (∀ c ∈ acc, isWs c = false) →
      ∀ t ∈ tokensAux acc l, t ≠ [] ∧ ∀ c ∈ t, isWs c = false ∧ (c ∈ acc ∨ c ∈ l) := by
  induction l with
  | nil =>
    intro acc hacc t ht
    by_cases ha : acc.isEmpty
    · simp [tokensAux, ha] at ht
    · simp only [tokensAux, ha, if_false] at ht
      rcases List.mem_singleton.mp ht with h
      subst h
      refine ⟨by simpa using fun h => ha (by simp [h]), ?_⟩
      intro c hc
      rw [List.mem_reverse] at hc
      exact ⟨hacc c hc, Or.inl hc⟩
  | cons d r ih =>
    intro acc hacc t ht
    by_cases hd : isWs d = true
    · have hnext : ∀ ht2 : t ∈ tokensAux [] r,
          t ≠ [] ∧ ∀ c ∈ t, isWs c = false ∧ (c ∈ acc ∨ c ∈ d :: r) := by
        intro ht2
        obtain ⟨h1, h2⟩ := ih [] (by simp) t ht2
        refine ⟨h1, fun c hc => ⟨(h2 c hc).1, Or.inr ?_⟩⟩
        rcases (h2 c hc).2 with h | h
        · exact absurd h (List.not_mem_nil c)
        · exact List.mem_cons_of_mem d h
      by_cases ha : acc.isEmpty
      · simp only [tokensAux, hd, if_true, ha] at ht
        exact hnext ht
      · simp [tokensAux, hd, ha] at ht
        rcases ht with h | h
        · subst h
          refine ⟨by simpa using fun h => ha (by simp [h]), ?_⟩
          intro c hc
          rw [List.mem_reverse] at hc
          exact ⟨hacc c hc, Or.inl hc⟩
        · exact hnext h
    · simp only [tokensAux, hd, if_false] at ht
      have hacc2 : ∀ c ∈ (d :: acc), isWs c = false := by
        intro c hc
        rcases List.mem_cons.mp hc with h | h
        · exact h ▸ Bool.eq_false_iff.mpr hd
        · exact hacc c h
      obtain ⟨h1, h2⟩ := ih (d :: acc) hacc2 t ht
      refine ⟨h1, fun c hc => ⟨(h2 c hc).1, ?_⟩⟩
      rcases (h2 c hc).2 with h | h
      · rcases List.mem_cons.mp h with h3 | h3
        · exact Or.inr (by simp [h3])
        · exact Or.inl h3
      · exact Or.inr (by simp [h])

/-! ### The code's interleaved `.strip()` calls do not change the result -/

/-- Appending a whitespace run does not change the split of the
slash/whitespace-stripped text. -/
theorem pySplit_dropSlash_append_ws (m w : List Char)
    (hw : ∀ c ∈ w, isWs c = true) :
    pySplit ((m ++ w).dropWhile isSlashWs) = pySplit (m.dropWhile isSlashWs) := by
  cases h : m.dropWhile isSlashWs with
  | nil =>
    rw [dropWhile_append_nil isSlashWs m w h,
      dropWhile_all isSlashWs w (fun c hc => ws_imp_slashWs c (hw c hc))]
  | cons d ds =>
    rw [dropWhile_append_pos isSlashWs m w (by simp [h]), h]
    exact tokensAux_append_ws (d :: ds) w hw []

/-- The two `.strip()` calls on the code path after truncation are
invisible to the final split. -/
theorem pySplit_strips (t : List Char) :
    pySplit (pyStrip ((pyStrip t).dropWhile isSlashWs))
      = pySplit (t.dropWhile isSlashWs) := by
  rw [pySplit_pyStrip]
  obtain ⟨w, hdecomp, hw⟩ := dropTrail_decomp isWs (t.dropWhile isWs)
  have h1 : pySplit ((t.dropWhile isWs).dropWhile isSlashWs)
      = pySplit ((pyStrip t).dropWhile isSlashWs) := by
    conv_lhs => rw [hdecomp]
    exact pySplit_dropSlash_append_ws (pyStrip t) w hw
  rw [← h1, dropWhile_subset_left isSlashWs isWs ws_imp_slashWs]

/-- The `.strip()` the code applies before truncation (on the bare-numeric
branch) is invisible to the final split, provided the input has no leading
whitespace. -/
theorem pySplit_strip_before_truncate (x : List Char)
    (hx : x.dropWhile isWs = x) :
    pySplit (((pyStrip x).takeWhile nonDelim).dropWhile isSlashWs)
      = pySplit ((x.takeWhile nonDelim).dropWhile isSlashWs) := by
  have hps : pyStrip x = dropTrail isWs x := by
    show dropTrail isWs (x.dropWhile isWs) = dropTrail isWs x
    rw [hx]
  obtain ⟨w, hdecomp, hw⟩ := dropTrail_decomp isWs x
  rw [hps]
  by_cases hcase : (dropTrail isWs x).takeWhile nonDelim = dropTrail isWs x
  · rw [hcase]
    conv_rhs => rw [hdecomp]
    rw [takeWhile_append_left nonDelim (dropTrail isWs x) w hcase,
      takeWhile_all nonDelim w (fun c hc => ws_imp_nonDelim c (hw c hc))]
    exact (pySplit_dropSlash_append_ws (dropTrail isWs x) w hw).symm
  · conv_rhs => rw [hdecomp]
    rw [takeWhile_append_stop nonDelim (dropTrail isWs x) w hcase]

/-- `fallback_parse` as written in the source coincides with the spec's
left-to-right composition of text-transform steps. -/
theorem fallback_parse_eq_fallbackSpec (s : List Char) :
    fallback_parse s = fallbackSpec s := by
  simp only [fallback_parse, fallbackSpec, stepE, stepD, stepC, stepB, stepA]
  by_cases h : (match pattern1Rem s with | some rem => rem | none => s) = s
  · rw [if_pos h, if_pos h]
    apply congrArg List.head?
    have hx : (s.dropWhile isQtyChar).dropWhile isWs = s.dropWhile isQtyChar :=
      dropWhile_subsumed isQtyChar isWs ws_imp_qtyChar s
    rw [pySplit_strips ((pyStrip (s.dropWhile isQtyChar)).takeWhile nonDelim)]
    exact pySplit_strip_before_truncate (s.dropWhile isQtyChar) hx
  · rw [if_neg h, if_neg h]
    apply congrArg List.head?
    exact pySplit_strips _

/-! ### Shape of a normally returned fallback token -/

theorem fallback_some_props (s w : List Char) (h : fallback_parse s = some w) :
    w ≠ [] ∧ ∀ c ∈ w, isWs c = false ∧ nonDelim c = true := by
  rw [fallback_parse_eq_fallbackSpec] at h
  have hw : w ∈ pySplit (stepD (stepC (stepB s))) := by
    unfold fallbackSpec stepE at h
    cases hl : pySplit (stepD (stepC (stepB s))) with
    | nil => rw [hl] at h; exact absurd h (by simp)
    | cons a as =>
      rw [hl] at h
      simp only [List.head?_cons, Option.some.injEq] at h
      rw [← h]
      exact List.mem_cons_self a as
  obtain ⟨h1, h2⟩ := tokensAux_shape (stepD (stepC (stepB s))) [] (by simp) w hw
  refine ⟨h1, fun c hc => ⟨(h2 c hc).1, ?_⟩⟩
  rcases (h2 c hc).2 with hmem | hmem
  · exact absurd hmem (List.not_mem_nil c)
  · have hc2 : c ∈ stepC (stepB s) :=
      (List.dropWhile_sublist isSlashWs).subset hmem
    exact List.mem_takeWhile_imp hc2

/-! ### Claims -/

/-- C1 (counterexample): on the non-empty input `"1/2"`, when the external
extraction raises, `parse_ingredient_advanced` does not return a record or
a fallback string — the fallback's `IndexError` escapes to the caller
(result `none` in the embedding), refuting "never lets any exception
escape". -/
theorem parse_advanced_exception_escapes :
    "1/2".toList ≠ [] ∧
      parse_ingredient_advanced Option.none "1/2".toList = Option.none := by
  exact ⟨by decide, by rfl⟩

/-- C1 (amended): for every ingredient text on which `fallback_parse`
yields a token, `parse_ingredient_advanced` returns a structured record or
a bare fallback name for every extractor outcome, letting no exception
escape; the only escaping failure is the fallback's own `IndexError`. -/
theorem parse_advanced_no_escape (primary : Option IPResult) (text w : List Char)
    (h : fallback_parse text = some w) :
    ∃ out, parse_ingredient_advanced primary text = some out := by
  cases primary with
  | none =>
    exact ⟨ParseOut.fallback w, by simp [parse_ingredient_advanced, h]⟩
  | some r =>
    rcases r with ⟨rname, ramount, rprep⟩
    cases rname with
    | nil => exact ⟨ParseOut.fallback w, by simp [parse_ingredient_advanced, h]⟩
    | cons n0 rest =>
      by_cases hc : (6 : ℚ) / 10 < n0.confidence
      · refine ⟨ParseOut.structured
          { name := n0.text
            quantity := match ramount with
              | [] => PyQuantity.none
              | a :: _ => a.quantity
            unit := match ramount with
              | [] => PyUnit.str []
              | a :: _ => a.unit
            preparation := match rprep with
              | some p => p.text
              | Option.none => []
            original := text
            parsed_successfully := true }, ?_⟩
        simp [parse_ingredient_advanced, hc]
      · exact ⟨ParseOut.fallback w, by simp [parse_ingredient_advanced, hc, h]⟩

/-- C1 (witness for the amended theorem). -/
theorem parse_advanced_no_escape_witness :
    ∃ out, parse_ingredient_advanced Option.none "1/2 cup couscous".toList
      = some out :=
  parse_advanced_no_escape Option.none "1/2 cup couscous".toList
    "couscous".toList (by rfl)

/-- C2: `parse_ingredient_advanced` accepts the primary result exactly when
the top name span's confidence strictly exceeds 0.6, emitting the record
with `parsed_successfully = true`, name from the top name span,
quantity/unit from the first amount span (`None`/empty when there is
none), preparation from the preparation span (empty when none), and
`original` the verbatim input; on confidence at or below 0.6, on an
extraction error, and on an empty name list the result is exactly
`fallback_parse` of the input (the informational logging is a print, with
no effect on the result). -/
theorem parse_advanced_confidence_gate (pr : Option IPResult) (text : List Char) :
    (pr = Option.none →
      parse_ingredient_advanced pr text = (fallback_parse text).map ParseOut.fallback)
    ∧ (∀ r, pr = some r → r.name = [] →
      parse_ingredient_advanced pr text = (fallback_parse text).map ParseOut.fallback)
    ∧ (∀ r n0 rest, pr = some r → r.name = n0 :: rest →
      (n0.confidence ≤ (6 : ℚ) / 10 →
        parse_ingredient_advanced pr text = (fallback_parse text).map ParseOut.fallback)
      ∧ ((6 : ℚ) / 10 < n0.confidence →
        parse_ingredient_advanced pr text = some (ParseOut.structured
          { name := n0.text
            quantity := (r.amount.head?).elim PyQuantity.none AmountSpan.quantity
            unit := (r.amount.head?).elim (PyUnit.str []) AmountSpan.unit
            preparation := (r.preparation).elim [] PrepSpan.text
            original := text
            parsed_successfully := true }))) := by
  refine ⟨?_, ?_, ?_⟩
  · intro h; subst h; rfl
  · intro r h hn
    subst h
    rcases r with ⟨rname, ramount, rprep⟩
    simp only at hn
    subst hn
    rfl
  · intro r n0 rest h hn
    subst h
    rcases r with ⟨rname, ramount, rprep⟩
    simp only at hn
    subst hn
    constructor
    · intro hle
      have hc : ¬ (6 : ℚ) / 10 < n0.confidence := not_lt.mpr hle
      simp [parse_ingredient_advanced, hc]
    · intro hlt
      cases ramount with
      | nil => cases rprep with
        | none => simp [parse_ingredient_advanced, hlt]
        | some p => simp [parse_ingredient_advanced, hlt]
      | cons a as => cases rprep with
        | none => simp [parse_ingredient_advanced, hlt]
        | some p => simp [parse_ingredient_advanced, hlt]

/-- C2 (witness): the gate applied to a high-confidence result, a
low-confidence result, an extraction error, and an empty name list, on
concrete inputs. -/
theorem parse_advanced_confidence_gate_witness :
    parse_ingredient_advanced (some ipHighEx) "1/2 cup couscous".toList
      = some (ParseOut.structured
        { name := "couscous".toList
          quantity := PyQuantity.str "1/2".toList
          unit := PyUnit.str "cup".toList
          preparation := []
          original := "1/2 cup couscous".toList
          parsed_successfully := true })
    ∧ parse_ingredient_advanced (some ipLowEx) "1/2 cup couscous".toList
      = (fallback_parse "1/2 cup couscous".toList).map ParseOut.fallback
    ∧ parse_ingredient_advanced Option.none "1/2 cup couscous".toList
      = (fallback_parse "1/2 cup couscous".toList).map ParseOut.fallback := by
  refine ⟨?_, ?_, ?_⟩
  · exact ((parse_advanced_confidence_gate (some ipHighEx)
      "1/2 cup couscous".toList).2.2 ipHighEx
      { text := "couscous".toList, confidence := 7 / 10 } [] rfl rfl).2
      (by norm_num)
  · exact ((parse_advanced_confidence_gate (some ipLowEx)
      "1/2 cup couscous".toList).2.2 ipLowEx
      { text := "couscous".toList, confidence := 1 / 2 } [] rfl rfl).1
      (by norm_num)
  · exact (parse_advanced_confidence_gate Option.none
      "1/2 cup couscous".toList).1 rfl

/-- C3: for every input string, `fallback_parse` equals the left-to-right
composition of the spec's text-transform steps (a)–(e). -/
theorem fallback_parse_is_step_composition (s : List Char) :
    fallback_parse s = fallbackSpec s :=
  fallback_parse_eq_fallbackSpec s

/-- C4: `categorize_ingredient` returns the first category of the table
order (proteins, vegetables, grains, dairy, herbs) with a case-insensitive
keyword-substring match, `"other"` when none matches, and in particular a
name containing both `"chicken"` and `"cheese"` categorizes as proteins by
table-order precedence. -/
theorem categorize_first_match (name : List Char) :
    (categorize_ingredient name = "proteins".toList ↔
      catMatches (kwsOf 0) name = true)
    ∧ (categorize_ingredient name = "vegetables".toList ↔
      catMatches (kwsOf 0) name = false ∧ catMatches (kwsOf 1) name = true)
    ∧ (categorize_ingredient name = "grains".toList ↔
      catMatches (kwsOf 0) name = false ∧ catMatches (kwsOf 1) name = false
        ∧ catMatches (kwsOf 2) name = true)
    ∧ (categorize_ingredient name = "dairy".toList ↔
      catMatches (kwsOf 0) name = false ∧ catMatches (kwsOf 1) name = false
        ∧ catMatches (kwsOf 2) name = false ∧ catMatches (kwsOf 3) name = true)
    ∧ (categorize_ingredient name = "herbs".toList ↔
      catMatches (kwsOf 0) name = false ∧ catMatches (kwsOf 1) name = false
        ∧ catMatches (kwsOf 2) name = false ∧ catMatches (kwsOf 3) name = false
        ∧ catMatches (kwsOf 4) name = true)
    ∧ (categorize_ingredient name = "other".toList ↔
      catMatches (kwsOf 0) name = false ∧ catMatches (kwsOf 1) name = false
        ∧ catMatches (kwsOf 2) name = false ∧ catMatches (kwsOf 3) name = false
        ∧ catMatches (kwsOf 4) name = false)
    ∧ categorize_ingredient "chicken cheese".toList = "proteins".toList := by
  have e : categorize_ingredient name
      = (if catMatches (kwsOf 0) name = true then "proteins".toList
        else if catMatches (kwsOf 1) name = true then "vegetables".toList
        else if catMatches (kwsOf 2) name = true then "grains".toList
        else if catMatches (kwsOf 3) name = true then "dairy".toList
        else if catMatches (kwsOf 4) name = true then "herbs".toList
        else "other".toList) := rfl
  refine ⟨?_, ?_, ?_, ?_, ?_, ?_, by rfl⟩ <;>
    rw [e] <;>
    by_cases b0 : catMatches (kwsOf 0) name = true <;>
    by_cases b1 : catMatches (kwsOf 1) name = true <;>
    by_cases b2 : catMatches (kwsOf 2) name = true <;>
    by_cases b3 : catMatches (kwsOf 3) name = true <;>
    by_cases b4 : catMatches (kwsOf 4) name = true <;>
    simp [b0, b1, b2, b3, b4, Bool.not_eq_true]

/-- C5 (counterexample): on the empty string, `fallback_parse` does not
return the empty string (or any token): `words[0]` raises `IndexError`
(result `none` in the embedding). -/
theorem fallback_empty_raises :
    fallback_parse ([] : List Char) = Option.none
      ∧ fallback_parse ([] : List Char) ≠ some [] := by
  exact ⟨by rfl, by decide⟩

/-- C5 (amended): `fallback_parse` applied to the empty string raises
`IndexError` from the `words[0]` indexing rather than returning a value. -/
theorem fallback_empty_result :
    fallback_parse ([] : List Char) = Option.none := by
  rfl

/-- C6: on `"50 g / 1.5 oz feta cheese"` the leading dual-unit group is
stripped leaving `"feta cheese"`, the first-token rule returns `"feta"`,
and `"feta"` categorizes as dairy. -/
theorem dual_unit_scenario :
    pattern1Rem "50 g / 1.5 oz feta cheese".toList = some "feta cheese".toList
    ∧ fallback_parse "50 g / 1.5 oz feta cheese".toList = some "feta".toList
    ∧ categorize_ingredient "feta".toList = "dairy".toList := by
  refine ⟨by rfl, by rfl, by rfl⟩

/-- C7: `convert_quantity` maps every present quantity to a (finite)
numeric value or `None`: `Fraction`, `int` and `float` inputs convert to
their float value, the rational-style string `"1/2"` round-trips through
`Fraction` to exactly 0.5, and unparseable strings — including the
division by zero `"1/0"` — yield `None` rather than an error. -/
theorem convert_quantity_total :
    (∀ q : ℚ, convert_quantity (PyQuantity.fraction q) = some q)
    ∧ (∀ n : ℤ, convert_quantity (PyQuantity.int n) = some (n : ℚ))
    ∧ (∀ x : ℚ, convert_quantity (PyQuantity.float x) = some x)
    ∧ convert_quantity (PyQuantity.str "1/2".toList) = some ((1 : ℚ) / 2)
    ∧ convert_quantity (PyQuantity.str "0.5".toList) = some ((1 : ℚ) / 2)
    ∧ convert_quantity (PyQuantity.str "1/0".toList) = Option.none
    ∧ convert_quantity (PyQuantity.str "abc".toList) = Option.none
    ∧ (∀ s, pyFloatOfString s = Option.none → pyFractionOfString s = Option.none →
        convert_quantity (PyQuantity.str s) = Option.none)
    ∧ convert_quantity PyQuantity.none = Option.none := by
  refine ⟨fun q => rfl, fun n => rfl, fun x => rfl, ?_, ?_,
    by decide, by decide, ?_, rfl⟩
  · have hf : pyFloatOfString "1/2".toList = Option.none := by decide
    have hr : pyFractionOfString "1/2".toList
        = some ((1 : ℚ) * ((1 : Nat) : ℚ) / ((2 : Nat) : ℚ)) := rfl
    rw [show convert_quantity (PyQuantity.str "1/2".toList)
        = some ((1 : ℚ) * ((1 : Nat) : ℚ) / ((2 : Nat) : ℚ)) from by
      simp only [convert_quantity, hf, hr]]
    norm_num
  · have hr : pyFloatOfString "0.5".toList
        = some ((1 : ℚ) * (((0 : Nat) : ℚ) + ((5 : Nat) : ℚ) / 10 ^ (1 : Nat))) := rfl
    rw [show convert_quantity (PyQuantity.str "0.5".toList)
        = some ((1 : ℚ) * (((0 : Nat) : ℚ) + ((5 : Nat) : ℚ) / 10 ^ (1 : Nat))) from by
      simp only [convert_quantity, hr]]
    norm_num
  · intro s h1 h2
    simp [convert_quantity, h1, h2]

/-- C7 (witness): the string-conversion fallback chain discharged on the
concrete unparseable input `"x/y"`. -/
theorem convert_quantity_total_witness :
    pyFloatOfString "x/y".toList = Option.none
    ∧ pyFractionOfString "x/y".toList = Option.none
    ∧ convert_quantity (PyQuantity.str "x/y".toList) = Option.none :=
  ⟨by decide, by decide,
    convert_quantity_total.2.2.2.2.2.2.2.1 "x/y".toList (by decide) (by decide)⟩

/-- The enumeration invariant of the ingredient-building loop, generalized
over the starting index. -/
theorem buildIngredients_enum (oracle : List Char → Option IPResult) (rid : Nat) :
    ∀ (lines : List (List Char)) (k : Nat) (recs : List IngRec),
      buildIngredients oracle rid k lines = some recs →
      recs.length = lines.length ∧
        ∀ i (h1 : i < recs.length) (h2 : i < lines.length),
          (recs.get ⟨i, h1⟩).position = k + i ∧
            (recs.get ⟨i, h1⟩).original_text = lines.get ⟨i, h2⟩ := by
  intro lines
  induction lines with
  | nil =>
    intro k recs h
    simp only [buildIngredients, Option.some.injEq] at h
    subst h
    exact ⟨rfl, fun i h1 _ => absurd h1 (by simp)⟩
  | cons t rest ih =>
    intro k recs h
    simp only [buildIngredients] at h
    cases hp : parse_ingredient_advanced (oracle t) t with
    | none => rw [hp] at h; exact absurd h (by simp)
    | some p =>
      rw [hp] at h
      cases hb : buildIngredients oracle rid (k + 1) rest with
      | none => rw [hb] at h; exact absurd h (by simp)
      | some rs =>
        rw [hb] at h
        simp only [Option.some.injEq] at h
        subst h
        obtain ⟨hlen, hpos⟩ := ih (k + 1) rs hb
        refine ⟨by simp [hlen], ?_⟩
        intro i h1 h2
        cases i with
        | zero => exact ⟨by simp [mkIngRec], by simp [mkIngRec]⟩
        | succ j =>
          have hj1 : j < rs.length := by simpa using h1
          have hj2 : j < rest.length := by simpa using h2
          obtain ⟨ha, hb2⟩ := hpos j hj1 hj2
          constructor
          · simp only [List.get_cons_succ]
            rw [ha]
            omega
          · simpa using hb2

/-- C8: within one recipe, the record built for the `i`-th ingredient line
(1-based) carries `position = i` and `original_text` equal to that line,
whenever `insert_recipe` parses an ingredient list. -/
theorem insert_recipe_positions (oracle : List Char → Option IPResult)
    (rid : Nat) (lines : List (List Char)) (recs : List IngRec)
    (h : insert_recipe_ingredients oracle rid lines = some recs) :
    recs.length = lines.length ∧
      ∀ i (h1 : i < recs.length) (h2 : i < lines.length),
        (recs.get ⟨i, h1⟩).position = i + 1 ∧
          (recs.get ⟨i, h1⟩).original_text = lines.get ⟨i, h2⟩ := by
  obtain ⟨hlen, hpos⟩ := buildIngredients_enum oracle rid lines 1 recs h
  refine ⟨hlen, fun i h1 h2 => ⟨?_, (hpos i h1 h2).2⟩⟩
  rw [(hpos i h1 h2).1]
  omega

/-- C8 (witness): the invariant discharged on two concrete ingredient
lines with the extractor erroring (fallback path). -/
theorem insert_recipe_positions_witness :
    ((insert_recipe_ingredients (fun _ => Option.none) 3 c8LinesEx).getD []).length
        = c8LinesEx.length ∧
      ∀ i (h1 : i < ((insert_recipe_ingredients (fun _ => Option.none) 3
            c8LinesEx).getD []).length) (h2 : i < c8LinesEx.length),
        ((((insert_recipe_ingredients (fun _ => Option.none) 3
            c8LinesEx).getD []).get ⟨i, h1⟩)).position = i + 1 ∧
          ((((insert_recipe_ingredients (fun _ => Option.none) 3
            c8LinesEx).getD []).get ⟨i, h1⟩)).original_text = c8LinesEx.get ⟨i, h2⟩ :=
  insert_recipe_positions (fun _ => Option.none) 3 c8LinesEx
    ((insert_recipe_ingredients (fun _ => Option.none) 3 c8LinesEx).getD [])
    (by rfl)

/-- C9: the `words[0]` indexing of `fallback_parse` raises `IndexError`
exactly when the stripping steps and the comma/parenthesis truncation
leave no non-whitespace character; on the spec's example inputs `""`,
`"   "`, `"1/2"`, `"1 cup "` and `", juiced"` it raises, and whenever a
token survives, a nonempty token is returned. -/
theorem fallback_index_error_iff :
    (∀ s, (fallback_parse s = Option.none ↔
      ∀ c ∈ stepD (stepC (stepB s)), isWs c = true))
    ∧ fallback_parse "".toList = Option.none
    ∧ fallback_parse "   ".toList = Option.none
    ∧ fallback_parse "1/2".toList = Option.none
    ∧ fallback_parse "1 cup ".toList = Option.none
    ∧ fallback_parse ", juiced".toList = Option.none
    ∧ (∀ s w, fallback_parse s = some w → w ≠ []) := by
  refine ⟨?_, by rfl, by rfl, by rfl, by rfl, by rfl,
    fun s w h => (fallback_some_props s w h).1⟩
  intro s
  rw [fallback_parse_eq_fallbackSpec]
  unfold fallbackSpec stepE
  rw [List.head?_eq_none_iff]
  exact pySplit_eq_nil_iff (stepD (stepC (stepB s)))

/-- C9 (witness): the characterization and the safe-return part discharged
at concrete inputs. -/
theorem fallback_index_error_iff_witness :
    (fallback_parse "".toList = Option.none ↔
      ∀ c ∈ stepD (stepC (stepB "".toList)), isWs c = true)
    ∧ "pork".toList ≠ [] :=
  ⟨fallback_index_error_iff.1 "".toList,
    fallback_index_error_iff.2.2.2.2.2.2 "2 pork cutlets, at room temperature".toList
      "pork".toList (by rfl)⟩

/-- C10: whenever `fallback_parse` returns normally, the result is a
nonempty single token containing no whitespace, no comma, and no open
parenthesis. -/
theorem fallback_token_shape (s w : List Char)
    (h : fallback_parse s = some w) :
    w ≠ [] ∧ ∀ c ∈ w, isWs c = false ∧ c ≠ ',' ∧ c ≠ '(' := by
  obtain ⟨h1, h2⟩ := fallback_some_props s w h
  refine ⟨h1, fun c hc => ⟨(h2 c hc).1, ?_, ?_⟩⟩ <;>
    · have hnd := (h2 c hc).2
      intro heq
      subst heq
      simp [nonDelim] at hnd

/-- C10 (witness): the token shape discharged on the concrete input
`"50 g / 1.5 oz feta cheese"`. -/
theorem fallback_token_shape_witness :
    "feta".toList ≠ [] ∧
      ∀ c ∈ "feta".toList, isWs c = false ∧ c ≠ ',' ∧ c ≠ '(' :=
  fallback_token_shape "50 g / 1.5 oz feta cheese".toList "feta".toList (by rfl)

end RecipePG
